import Mathlib

/-!
Verification of the in-memory component cache
(`cache/component_cache.go` of the component-service repository).

The cache keeps three structures in lockstep:
* `componentsByID`    : map from id to the current component value,
* `childrenByParentID`: map from a parent key to the list of children,
* `allComponents`     : flat listing of every cached component.

Go maps are modelled as functions `Int → Option _` (no cache operation ever
iterates over a map, so map iteration order is unobservable); slices are
modelled as `List`; `*models.Component` values are modelled by value, which is
faithful because the cache copies on every store and on every return, and
never mutates a stored value in place.
-/

namespace ComponentCache

/-- Model of Go's `sql.NullInt64`: a value plus a validity flag.  Go's `==`
on this struct compares both fields, which the model mirrors via `DecidableEq`. -/
structure NullInt64 where
  valid : Bool
  int64 : Int
deriving DecidableEq, Repr

/-- Model of `models.Component` as used by the store and the cache:
`ID int64`, `Name`, `Description string`, `ParentID sql.NullInt64`,
`CreatedAt`, `UpdatedAt string` (timestamps are RFC3339-formatted strings). -/
structure Component where
  id : Int
  name : String
  description : String
  parentID : NullInt64
  createdAt : String
  updatedAt : String
deriving DecidableEq, Repr

/-- Go: `const RootParentIDKey = 0`: the bucket key used for root components. -/
def RootParentIDKey : Int := 0

/-- Source `getParentKey`: the key of the `childrenByParentID` bucket an entity
belongs to — the literal `ParentID.Int64` when `ParentID.Valid`, else
`RootParentIDKey`. -/
def getParentKey (parentID : NullInt64) : Int :=
  if parentID.valid then parentID.int64 else RootParentIDKey

/-- The three structures of `ComponentCache` (the `sync.RWMutex` serialises
operations; each operation is modelled as an atomic state transformer). -/
@[ext]
structure CacheState where
  componentsByID : Int → Option Component
  childrenByParentID : Int → Option (List Component)
  allComponents : List Component

/-- Source `NewComponentCache()`: empty maps and an empty slice. -/
def NewComponentCache : CacheState :=
  { componentsByID := fun _ => none
    childrenByParentID := fun _ => none
    allComponents := [] }

/-- Source `removeChildFromParent`: filter `childID` out of the bucket `parentKey`;
delete the bucket if it becomes empty, store the filtered list only if
something was actually removed. -/
def removeChildFromParent (s : CacheState) (childID parentKey : Int) : CacheState :=
  match s.childrenByParentID parentKey with
  | none => s
  | some children =>
    let updatedChildren := children.filter (fun child => child.id ≠ childID)
    if updatedChildren.length = 0 then
      { s with childrenByParentID :=
          fun k => if k = parentKey then none else s.childrenByParentID k }
    else if updatedChildren.length < children.length then
      { s with childrenByParentID :=
          fun k => if k = parentKey then some updatedChildren else s.childrenByParentID k }
    else
      s

/-- The in-place replacement loop of `Set` on `allComponents`: replace the
first element with the given id (the Go loop breaks after the first hit). -/
def replaceFirstById (comp : Component) : List Component → List Component
  | [] => []
  | c :: rest =>
    if c.id = comp.id then comp :: rest else c :: replaceFirstById comp rest

/-- Source `Set`: upsert a component.  `none` models the Go `nil` argument (early
return).  Steps follow the source: conditional removal from the old parent
bucket, by-ID write, flat-listing replace-or-append, defensive removal from
the new parent bucket, then append to it. -/
def Set (s : CacheState) (component : Option Component) : CacheState :=
  match component with
  | none => s
  | some comp =>
    let s1 :=
      match s.componentsByID comp.id with
      | some oldComp =>
        if oldComp.parentID ≠ comp.parentID then
          removeChildFromParent s oldComp.id (getParentKey oldComp.parentID)
        else s
      | none => s
    let s2 := { s1 with componentsByID :=
        fun k => if k = comp.id then some comp else s1.componentsByID k }
    let s3 := { s2 with allComponents :=
        if s2.allComponents.any (fun c => c.id = comp.id) then
          replaceFirstById comp s2.allComponents
        else
          s2.allComponents ++ [comp] }
    let newParentKey := getParentKey comp.parentID
    let s4 := removeChildFromParent s3 comp.id newParentKey
    { s4 with childrenByParentID :=
        fun k => if k = newParentKey then
            some ((s4.childrenByParentID newParentKey).getD [] ++ [comp])
          else s4.childrenByParentID k }

/-- Source `Delete`: remove a component; no-op when the id is absent.  Removes the
entity from the by-ID map and the flat listing, and removes it from the bucket
of ITS OWN parent key (the bucket keyed by the deleted id is not touched). -/
def Delete (s : CacheState) (componentID : Int) : CacheState :=
  match s.componentsByID componentID with
  | none => s
  | some component =>
    let s1 := { s with componentsByID :=
        fun k => if k = componentID then none else s.componentsByID k }
    let s2 := { s1 with allComponents :=
        s1.allComponents.filter (fun comp => comp.id ≠ componentID) }
    removeChildFromParent s2 componentID (getParentKey component.parentID)

/-- Source `GetByID`: point lookup; `(copy, true)` when present, `(nil, false)`
otherwise. -/
def GetByID (s : CacheState) (id : Int) : Option Component × Bool :=
  match s.componentsByID id with
  | none => (none, false)
  | some component => (some component, true)

/-- Source `GetAll`: the flat listing (a fresh list of copies in Go; by value here). -/
def GetAll (s : CacheState) : List Component :=
  s.allComponents

/-- Source `GetChildren`: bucket lookup; `(empty, false)` when the key is absent or
its list is empty. -/
def GetChildren (s : CacheState) (parentID : Int) : List Component × Bool :=
  match s.childrenByParentID parentID with
  | none => ([], false)
  | some children =>
    if children.isEmpty then ([], false) else (children, true)

/-- One iteration of the snapshot loop of `InitGlobalCache`: insert into the
temporary by-ID map, append to the temporary flat slice, append into the
temporary bucket of the resolved parent key. -/
def initStep (s : CacheState) (component : Component) : CacheState :=
  let parentKey := getParentKey component.parentID
  { componentsByID :=
      fun k => if k = component.id then some component else s.componentsByID k
    childrenByParentID :=
      fun k => if k = parentKey then
          some ((s.childrenByParentID parentKey).getD [] ++ [component])
        else s.childrenByParentID k
    allComponents := s.allComponents ++ [component] }

/-- The successful bulk build of `InitGlobalCache`: fold the snapshot through
`initStep` starting from a fresh cache. -/
def buildFromSnapshot (components : List Component) : CacheState :=
  components.foldl initStep NewComponentCache

/-- Source `InitGlobalCache`: the global is UNCONDITIONALLY replaced by a fresh empty
cache first; then the loader runs.  On loader failure a wrapped error is
returned (and the fresh empty cache stays as the global); on success the
snapshot is folded in.  Returns (new global, returned error). -/
def InitGlobalCache (_prior : Option CacheState)
    (loaderResult : Except String (List Component)) :
    Option CacheState × Option String :=
  let fresh := NewComponentCache
  match loaderResult with
  | Except.error e =>
      (some fresh, some ("failed to list components for cache initialization: " ++ e))
  | Except.ok components =>
      (some (buildFromSnapshot components), none)

/-- Cache states reachable by one `InitGlobalCache` bulk build from a snapshot
with pairwise-distinct ids, followed by any sequence of `Set`/`Delete` calls. -/
inductive Reachable : CacheState → Prop where
  | init : ∀ comps : List Component,
      (comps.map Component.id).Nodup → Reachable (buildFromSnapshot comps)
  | set : ∀ s c, Reachable s → Reachable (Set s c)
  | del : ∀ s i, Reachable s → Reachable (Delete s i)

/-! ### Counting occurrences of an id in a component list -/

/-- Number of elements of `l` whose id is `i`. -/
def countId (i : Int) : List Component → Nat
  | [] => 0
  | c :: rest => (if c.id = i then 1 else 0) + countId i rest

/-- Net effect of `removeChildFromParent` on the targeted bucket: filter the
child out; an emptied (or already absent) bucket is dropped from the map. -/
def pruneFilter (childID : Int) (o : Option (List Component)) :
    Option (List Component) :=
  match o with
  | none => none
  | some children =>
    if children.filter (fun child => child.id ≠ childID) = [] then none
    else some (children.filter (fun child => child.id ≠ childID))

/-- The bucket map produced by `Set` (intermediate states made explicit:
optional removal from the old parent bucket, defensive removal from the new
bucket, append to the new bucket). -/
def setBuckets (s : CacheState) (comp : Component) : Int → Option (List Component) :=
  let b1 :=
    match s.componentsByID comp.id with
    | some oldComp =>
      if oldComp.parentID ≠ comp.parentID then
        fun k => if k = getParentKey oldComp.parentID then
            pruneFilter oldComp.id (s.childrenByParentID k)
          else s.childrenByParentID k
      else s.childrenByParentID
    | none => s.childrenByParentID
  let nk := getParentKey comp.parentID
  let b2 := fun k => if k = nk then pruneFilter comp.id (b1 k) else b1 k
  fun k => if k = nk then some ((b2 nk).getD [] ++ [comp]) else b2 k

/-- Index consistency: the ids in the flat listing, the keys of the by-ID
index and the ids across the by-parent buckets coincide, each id occurring
exactly once; every bucket member is the current by-ID value of its id and
sits in the bucket of its resolved parent key. -/
structure Consistent (s : CacheState) : Prop where
  keysMatch : ∀ k c, s.componentsByID k = some c → c.id = k
  flatCount : ∀ i, countId i s.allComponents =
    if (s.componentsByID i).isSome then 1 else 0
  bucketMem : ∀ k l, s.childrenByParentID k = some l →
    ∀ c ∈ l, s.componentsByID c.id = some c ∧ getParentKey c.parentID = k
  bucketNonempty : ∀ k l, s.childrenByParentID k = some l → l ≠ []
  bucketCount : ∀ i c, s.componentsByID i = some c →
    countId i ((s.childrenByParentID (getParentKey c.parentID)).getD []) = 1

/-! ### Concrete fixtures (the §8 snapshot: 1 a root, 2 and 3 children of 1) -/

/-- Root component (no parent), id 1. -/
def cA : Component := ⟨1, "A", "", ⟨false, 0⟩, "", ""⟩

/-- Child of 1, id 2. -/
def cB : Component := ⟨2, "B", "", ⟨true, 1⟩, "", ""⟩

/-- Child of 1, id 3. -/
def cC : Component := ⟨3, "C", "", ⟨true, 1⟩, "", ""⟩

/-- Same id and parent as `cB`, different payload. -/
def cB2 : Component := ⟨2, "B-renamed", "", ⟨true, 1⟩, "", ""⟩

/-- Same id as `cB`, reparented to the ROOT sentinel (absent parent). -/
def cBroot : Component := ⟨2, "B", "", ⟨false, 0⟩, "", ""⟩

/-- A component whose parent_id is PRESENT with the sentinel value 0. -/
def e7 : Component := ⟨7, "seven", "", ⟨true, 0⟩, "", ""⟩

theorem countId_nil (i : Int) : countId i [] = 0 := rfl

theorem countId_cons (i : Int) (c : Component) (l : List Component) :
    countId i (c :: l) = (if c.id = i then 1 else 0) + countId i l := rfl

theorem countId_append (i : Int) (l₁ l₂ : List Component) :
    countId i (l₁ ++ l₂) = countId i l₁ + countId i l₂ := by
  induction l₁ with
  | nil => simp [countId]
  | cons c rest ih => simp [countId, ih]; omega

theorem countId_eq_zero {i : Int} {l : List Component} :
    countId i l = 0 ↔ ∀ c ∈ l, c.id ≠ i := by
  induction l with
  | nil => simp [countId]
  | cons c rest ih =>
    by_cases h : c.id = i <;> simp [countId, h, ih]

theorem countId_filter_self (j : Int) (l : List Component) :
    countId j (l.filter (fun c => c.id ≠ j)) = 0 := by
  rw [countId_eq_zero]
  intro c hc
  simpa using (List.of_mem_filter hc)

theorem countId_filter_ne {i j : Int} (hij : i ≠ j) (l : List Component) :
    countId i (l.filter (fun c => c.id ≠ j)) = countId i l := by
  induction l with
  | nil => rfl
  | cons c rest ih =>
    rw [List.filter_cons]
    by_cases hc : c.id = j
    · have hci : ¬ c.id = i := by rw [hc]; exact fun h => hij h.symm
      rw [if_neg (by simp [hc]), ih, countId_cons, if_neg hci, Nat.zero_add]
    · rw [if_pos (by simp [hc]), countId_cons, countId_cons, ih]

theorem filter_id_eq_self {j : Int} {l : List Component}
    (h : ∀ c ∈ l, c.id ≠ j) : l.filter (fun c => c.id ≠ j) = l := by
  induction l with
  | nil => rfl
  | cons c rest ih =>
    have hc : c.id ≠ j := h c (List.mem_cons_self c rest)
    simp only [List.filter_cons, decide_eq_true_eq]
    rw [if_pos hc, ih (fun c hc => h c (List.mem_cons_of_mem _ hc))]

theorem any_id_iff (j : Int) (l : List Component) :
    (l.any (fun c => c.id = j)) = true ↔ countId j l ≠ 0 := by
  induction l with
  | nil => simp [countId]
  | cons c rest ih =>
    by_cases h : c.id = j <;> simp [countId, h, ih]

/-! ### `replaceFirstById` -/

theorem countId_replaceFirstById (i : Int) (comp : Component) (l : List Component) :
    countId i (replaceFirstById comp l) = countId i l := by
  induction l with
  | nil => rfl
  | cons c rest ih =>
    by_cases h : c.id = comp.id
    · simp [replaceFirstById, h, countId]
    · simp [replaceFirstById, h, countId, ih]

theorem map_id_replaceFirstById (comp : Component) (l : List Component) :
    (replaceFirstById comp l).map Component.id = l.map Component.id := by
  induction l with
  | nil => rfl
  | cons c rest ih =>
    by_cases h : c.id = comp.id
    · simp [replaceFirstById, h]
    · simp [replaceFirstById, h, ih]

theorem replaceFirstById_idem (comp : Component) (l : List Component) :
    replaceFirstById comp (replaceFirstById comp l) = replaceFirstById comp l := by
  induction l with
  | nil => rfl
  | cons c rest ih =>
    by_cases h : c.id = comp.id
    · simp [replaceFirstById, h]
    · simp [replaceFirstById, h, ih]

theorem replaceFirstById_cons (comp c : Component) (l : List Component) :
    replaceFirstById comp (c :: l) =
      if c.id = comp.id then comp :: l else c :: replaceFirstById comp l := rfl

theorem replaceFirstById_append_self {comp : Component} {l : List Component}
    (h : ∀ c ∈ l, c.id ≠ comp.id) :
    replaceFirstById comp (l ++ [comp]) = l ++ [comp] := by
  induction l with
  | nil => simp [replaceFirstById]
  | cons c rest ih =>
    have hc : c.id ≠ comp.id := h c (List.mem_cons_self c rest)
    rw [List.cons_append, replaceFirstById_cons, if_neg hc,
      ih (fun c hc => h c (List.mem_cons_of_mem _ hc))]

theorem mem_replaceFirstById {c' comp : Component} {l : List Component}
    (h : c' ∈ replaceFirstById comp l) : c' = comp ∨ c' ∈ l := by
  induction l with
  | nil => simp [replaceFirstById] at h
  | cons c rest ih =>
    by_cases hc : c.id = comp.id
    · simp only [replaceFirstById, if_pos hc, List.mem_cons] at h
      rcases h with h | h
      · exact Or.inl h
      · exact Or.inr (List.mem_cons_of_mem _ h)
    · simp only [replaceFirstById, if_neg hc, List.mem_cons] at h
      rcases h with h | h
      · exact Or.inr (h ▸ List.mem_cons_self c rest)
      · rcases ih h with h | h
        · exact Or.inl h
        · exact Or.inr (List.mem_cons_of_mem _ h)

/-! ### `pruneFilter`: the net effect of `removeChildFromParent` on one bucket -/


theorem pruneFilter_none (j : Int) : pruneFilter j none = none := rfl

theorem pruneFilter_some (j : Int) (l : List Component) :
    pruneFilter j (some l) =
      if l.filter (fun c => c.id ≠ j) = [] then none
      else some (l.filter (fun c => c.id ≠ j)) := rfl

theorem getD_pruneFilter (j : Int) (o : Option (List Component)) :
    (pruneFilter j o).getD [] = (o.getD []).filter (fun c => c.id ≠ j) := by
  cases o with
  | none => rfl
  | some l =>
    rw [pruneFilter_some, Option.getD_some]
    by_cases h : l.filter (fun c => c.id ≠ j) = []
    · rw [if_pos h, h]; rfl
    · rw [if_neg h, Option.getD_some]

theorem countId_pruneFilter_self (j : Int) (o : Option (List Component)) :
    countId j ((pruneFilter j o).getD []) = 0 := by
  rw [getD_pruneFilter]; exact countId_filter_self j _

theorem countId_pruneFilter_ne {i j : Int} (hij : i ≠ j) (o : Option (List Component)) :
    countId i ((pruneFilter j o).getD []) = countId i (o.getD []) := by
  rw [getD_pruneFilter]; exact countId_filter_ne hij _

theorem pruneFilter_ne_nil {j : Int} {o : Option (List Component)}
    {l : List Component} (h : pruneFilter j o = some l) : l ≠ [] := by
  cases o with
  | none => exact absurd h (by rw [pruneFilter_none]; exact fun h => Option.noConfusion h)
  | some l₀ =>
    rw [pruneFilter_some] at h
    by_cases hf : l₀.filter (fun c => c.id ≠ j) = []
    · rw [if_pos hf] at h; exact absurd h (fun h => Option.noConfusion h)
    · rw [if_neg hf] at h
      exact (Option.some_inj.mp h) ▸ hf

theorem mem_of_mem_pruneFilter {j : Int} {o : Option (List Component)}
    {l : List Component} {c : Component}
    (h : pruneFilter j o = some l) (hc : c ∈ l) : c ∈ o.getD [] ∧ c.id ≠ j := by
  cases o with
  | none => exact absurd h (by rw [pruneFilter_none]; exact fun h => Option.noConfusion h)
  | some l₀ =>
    rw [pruneFilter_some] at h
    by_cases hf : l₀.filter (fun c => c.id ≠ j) = []
    · rw [if_pos hf] at h; exact absurd h (fun h => Option.noConfusion h)
    · rw [if_neg hf] at h
      rw [← Option.some_inj.mp h] at hc
      refine ⟨List.mem_of_mem_filter hc, ?_⟩
      simpa using List.of_mem_filter hc

theorem pruneFilter_eq_self {j : Int} {o : Option (List Component)}
    (hzero : countId j (o.getD []) = 0)
    (hne : ∀ l, o = some l → l ≠ []) : pruneFilter j o = o := by
  cases o with
  | none => rfl
  | some l =>
    rw [pruneFilter_some]
    have hf : l.filter (fun c => c.id ≠ j) = l :=
      filter_id_eq_self (countId_eq_zero.mp (by simpa using hzero))
    rw [hf, if_neg (hne l rfl)]

theorem countId_getD_eq_zero {i : Int} {o : Option (List Component)} :
    countId i (o.getD []) = 0 ↔ ∀ l, o = some l → ∀ c ∈ l, c.id ≠ i := by
  cases o with
  | none => simp [countId]
  | some l =>
    rw [Option.getD_some, countId_eq_zero]
    constructor
    · intro h l' hl'; rw [← Option.some_inj.mp hl']; exact h
    · intro h; exact h l rfl

theorem pruneFilter_idem (j : Int) (o : Option (List Component)) :
    pruneFilter j (pruneFilter j o) = pruneFilter j o := by
  cases o with
  | none => rfl
  | some l =>
    rw [pruneFilter_some]
    by_cases hf : l.filter (fun c => c.id ≠ j) = []
    · rw [if_pos hf]; rfl
    · rw [if_neg hf]
      refine pruneFilter_eq_self ?_ ?_
      · simpa using countId_filter_self j l
      · intro l' hl' hnil
        exact hf (by rw [Option.some_inj.mp hl']; exact hnil)

/-! ### Shape of `removeChildFromParent` -/

theorem removeChildFromParent_none {s : CacheState} {childID parentKey : Int}
    (h : s.childrenByParentID parentKey = none) :
    removeChildFromParent s childID parentKey = s := by
  unfold removeChildFromParent; rw [h]

theorem removeChildFromParent_some {s : CacheState} {childID parentKey : Int}
    {children : List Component}
    (h : s.childrenByParentID parentKey = some children) :
    removeChildFromParent s childID parentKey =
      (if (children.filter (fun child => child.id ≠ childID)).length = 0 then
        { s with childrenByParentID :=
            fun k => if k = parentKey then none else s.childrenByParentID k }
      else if (children.filter (fun child => child.id ≠ childID)).length
          < children.length then
        { s with childrenByParentID :=
            fun k => if k = parentKey then
                some (children.filter (fun child => child.id ≠ childID))
              else s.childrenByParentID k }
      else s) := by
  unfold removeChildFromParent; rw [h]

/-- Shape: `removeChildFromParent` is exactly `pruneFilter` applied to the targeted
bucket (all three Go branches collapse into this description). -/
theorem removeChildFromParent_eq (s : CacheState) (childID parentKey : Int) :
    removeChildFromParent s childID parentKey =
      { s with childrenByParentID :=
          fun k => if k = parentKey then pruneFilter childID (s.childrenByParentID k)
            else s.childrenByParentID k } := by
  cases h : s.childrenByParentID parentKey with
  | none =>
    rw [removeChildFromParent_none h]
    have hfun : (fun k => if k = parentKey then
          pruneFilter childID (s.childrenByParentID k) else s.childrenByParentID k)
        = s.childrenByParentID := by
      funext k
      by_cases hk : k = parentKey
      · subst hk; rw [if_pos rfl, h, pruneFilter_none]
      · rw [if_neg hk]
    rw [hfun]
  | some children =>
    rw [removeChildFromParent_some h]
    by_cases hf : children.filter (fun child => child.id ≠ childID) = []
    · rw [if_pos (by rw [hf]; rfl)]
      have hfun : ∀ k, (if k = parentKey then none else s.childrenByParentID k)
          = (if k = parentKey then pruneFilter childID (s.childrenByParentID k)
              else s.childrenByParentID k) := by
        intro k
        by_cases hk : k = parentKey
        · subst hk; rw [if_pos rfl, if_pos rfl, h, pruneFilter_some, if_pos hf]
        · rw [if_neg hk, if_neg hk]
      exact congrArg (fun f => CacheState.mk s.componentsByID f s.allComponents)
        (funext hfun)
    · have hlen0 : ¬ (children.filter (fun child => child.id ≠ childID)).length = 0 :=
        fun h0 => hf (List.length_eq_zero.mp h0)
      rw [if_neg hlen0]
      by_cases hlt : (children.filter (fun child => child.id ≠ childID)).length
          < children.length
      · rw [if_pos hlt]
        have hfun : ∀ k, (if k = parentKey then
              some (children.filter (fun child => child.id ≠ childID))
              else s.childrenByParentID k)
            = (if k = parentKey then pruneFilter childID (s.childrenByParentID k)
                else s.childrenByParentID k) := by
          intro k
          by_cases hk : k = parentKey
          · subst hk; rw [if_pos rfl, if_pos rfl, h, pruneFilter_some, if_neg hf]
          · rw [if_neg hk, if_neg hk]
        exact congrArg (fun f => CacheState.mk s.componentsByID f s.allComponents)
          (funext hfun)
      · rw [if_neg hlt]
        have hall : children.filter (fun child => child.id ≠ childID) = children := by
          refine (List.filter_sublist children).eq_of_length ?_
          have hle := List.length_filter_le (fun child => decide (child.id ≠ childID))
            children
          omega
        have hfun : (fun k => if k = parentKey then
              pruneFilter childID (s.childrenByParentID k) else s.childrenByParentID k)
            = s.childrenByParentID := by
          funext k
          by_cases hk : k = parentKey
          · subst hk
            rw [if_pos rfl, h, pruneFilter_some, hall,
              if_neg (fun hnil => hf (by rw [hall]; exact hnil))]
          · rw [if_neg hk]
        rw [hfun]

theorem removeChildFromParent_componentsByID (s : CacheState) (childID parentKey : Int) :
    (removeChildFromParent s childID parentKey).componentsByID = s.componentsByID := by
  rw [removeChildFromParent_eq]

theorem removeChildFromParent_allComponents (s : CacheState) (childID parentKey : Int) :
    (removeChildFromParent s childID parentKey).allComponents = s.allComponents := by
  rw [removeChildFromParent_eq]

theorem removeChildFromParent_childrenByParentID (s : CacheState)
    (childID parentKey : Int) :
    (removeChildFromParent s childID parentKey).childrenByParentID =
      fun k => if k = parentKey then pruneFilter childID (s.childrenByParentID k)
        else s.childrenByParentID k := by
  rw [removeChildFromParent_eq]

/-! ### Shape of `Set` -/

theorem Set_nil (s : CacheState) : Set s none = s := rfl


theorem Set_eq (s : CacheState) (comp : Component) :
    Set s (some comp) =
      { componentsByID :=
          fun k => if k = comp.id then some comp else s.componentsByID k
        childrenByParentID := setBuckets s comp
        allComponents :=
          if s.allComponents.any (fun c => c.id = comp.id) then
            replaceFirstById comp s.allComponents
          else s.allComponents ++ [comp] } := by
  cases h : s.componentsByID comp.id with
  | none =>
    simp only [Set, setBuckets, h, removeChildFromParent_eq]
  | some old =>
    by_cases hp : old.parentID ≠ comp.parentID
    · simp only [Set, setBuckets, h, if_pos hp, removeChildFromParent_eq]
    · simp only [Set, setBuckets, h, if_neg hp, removeChildFromParent_eq]

theorem Set_componentsByID (s : CacheState) (comp : Component) :
    (Set s (some comp)).componentsByID =
      fun k => if k = comp.id then some comp else s.componentsByID k := by
  rw [Set_eq]

theorem Set_allComponents (s : CacheState) (comp : Component) :
    (Set s (some comp)).allComponents =
      if s.allComponents.any (fun c => c.id = comp.id) then
        replaceFirstById comp s.allComponents
      else s.allComponents ++ [comp] := by
  rw [Set_eq]

theorem Set_childrenByParentID (s : CacheState) (comp : Component) :
    (Set s (some comp)).childrenByParentID = setBuckets s comp := by
  rw [Set_eq]

/-- The new parent-key bucket after `Set`: old occurrences of the id filtered
out, the fresh copy appended (holds whether or not the id was present, as long
as a present old value carries the same id, which `Consistent` guarantees). -/
theorem setBuckets_newKey (s : CacheState) (comp : Component)
    (hid : ∀ old, s.componentsByID comp.id = some old → old.id = comp.id) :
    setBuckets s comp (getParentKey comp.parentID) =
      some (((s.childrenByParentID (getParentKey comp.parentID)).getD []).filter
          (fun c => c.id ≠ comp.id) ++ [comp]) := by
  cases h : s.componentsByID comp.id with
  | none =>
    simp only [setBuckets, h, eq_self_iff_true, if_true]
    rw [getD_pruneFilter]
  | some old =>
    have hoid : old.id = comp.id := hid old h
    by_cases hp : old.parentID ≠ comp.parentID
    · simp only [setBuckets, h, if_pos hp, eq_self_iff_true, if_true]
      by_cases hk : getParentKey comp.parentID = getParentKey old.parentID
      · rw [if_pos hk, hoid, pruneFilter_idem, getD_pruneFilter]
      · rw [if_neg hk, getD_pruneFilter]
    · simp only [setBuckets, h, if_neg hp, eq_self_iff_true, if_true]
      rw [getD_pruneFilter]

/-- Buckets other than the new parent key and the (possible) old parent key
are untouched by `Set`. -/
theorem setBuckets_other (s : CacheState) (comp : Component) (k : Int)
    (hk : k ≠ getParentKey comp.parentID)
    (hk2 : ∀ old, s.componentsByID comp.id = some old →
      k ≠ getParentKey old.parentID) :
    setBuckets s comp k = s.childrenByParentID k := by
  cases h : s.componentsByID comp.id with
  | none => simp only [setBuckets, h, if_neg hk]
  | some old =>
    by_cases hp : old.parentID ≠ comp.parentID
    · simp only [setBuckets, h, if_pos hp, if_neg hk]
      rw [if_neg (hk2 old h)]
    · simp only [setBuckets, h, if_neg hp, if_neg hk]

/-- When the entity moves between distinct parent keys, the old bucket is
exactly pruned. -/
theorem setBuckets_oldKey (s : CacheState) (comp old : Component) (k : Int)
    (hold : s.componentsByID comp.id = some old) (hoid : old.id = comp.id)
    (hk : k = getParentKey old.parentID)
    (hnk : k ≠ getParentKey comp.parentID) :
    setBuckets s comp k = pruneFilter comp.id (s.childrenByParentID k) := by
  have hp : old.parentID ≠ comp.parentID := by
    intro hpe
    exact hnk (by rw [hk, hpe])
  simp only [setBuckets, hold, if_pos hp, if_neg hnk]
  rw [if_pos hk, hoid]

/-! ### Shape of `Delete` -/

theorem Delete_absent {s : CacheState} {componentID : Int}
    (h : s.componentsByID componentID = none) : Delete s componentID = s := by
  unfold Delete; rw [h]

theorem Delete_eq {s : CacheState} {componentID : Int} {component : Component}
    (h : s.componentsByID componentID = some component) :
    Delete s componentID =
      { componentsByID :=
          fun k => if k = componentID then none else s.componentsByID k
        childrenByParentID := fun k =>
          if k = getParentKey component.parentID then
            pruneFilter componentID (s.childrenByParentID k)
          else s.childrenByParentID k
        allComponents :=
          s.allComponents.filter (fun comp => comp.id ≠ componentID) } := by
  simp only [Delete, h, removeChildFromParent_eq]

/-! ### Shape of `initStep` -/

theorem initStep_componentsByID (s : CacheState) (comp : Component) (k : Int) :
    (initStep s comp).componentsByID k =
      if k = comp.id then some comp else s.componentsByID k := rfl

theorem initStep_childrenByParentID (s : CacheState) (comp : Component) (k : Int) :
    (initStep s comp).childrenByParentID k =
      if k = getParentKey comp.parentID then
        some ((s.childrenByParentID (getParentKey comp.parentID)).getD [] ++ [comp])
      else s.childrenByParentID k := rfl

theorem initStep_allComponents (s : CacheState) (comp : Component) :
    (initStep s comp).allComponents = s.allComponents ++ [comp] := rfl

/-! ### The index-consistency invariant -/

theorem countId_singleton (i : Int) (c : Component) :
    countId i [c] = if c.id = i then 1 else 0 := by
  simp [countId]


/-- An id absent from the by-ID index occurs in no bucket. -/
theorem countId_bucket_of_none {s : CacheState} (hc : Consistent s) {i : Int}
    (h : s.componentsByID i = none) (k : Int) :
    countId i ((s.childrenByParentID k).getD []) = 0 := by
  rw [countId_getD_eq_zero]
  intro l hl c hcl hci
  have hmem := (hc.bucketMem k l hl c hcl).1
  rw [hci, h] at hmem
  exact Option.noConfusion hmem

/-- A cached id occurs in no bucket other than the one of its resolved
parent key. -/
theorem countId_bucket_of_ne {s : CacheState} (hc : Consistent s)
    {i : Int} {c : Component} (h : s.componentsByID i = some c) {k : Int}
    (hk : k ≠ getParentKey c.parentID) :
    countId i ((s.childrenByParentID k).getD []) = 0 := by
  rw [countId_getD_eq_zero]
  intro l hl c' hcl hci
  obtain ⟨hmem, hkey⟩ := hc.bucketMem k l hl c' hcl
  rw [hci, h] at hmem
  rw [← Option.some_inj.mp hmem] at hkey
  exact hk hkey.symm

theorem Consistent_empty : Consistent NewComponentCache := by
  constructor
  · intro k c h; exact Option.noConfusion h
  · intro i; simp [NewComponentCache, countId]
  · intro k l h; exact Option.noConfusion h
  · intro k l h; exact Option.noConfusion h
  · intro i c h; exact Option.noConfusion h

/-- Freshness: `initStep` preserves consistency when the inserted id is fresh. -/
theorem Consistent_initStep {s : CacheState} (hc : Consistent s) {comp : Component}
    (hfresh : s.componentsByID comp.id = none) : Consistent (initStep s comp) := by
  constructor
  · intro k c h
    rw [initStep_componentsByID] at h
    by_cases hk : k = comp.id
    · rw [if_pos hk] at h
      rw [← Option.some_inj.mp h, hk]
    · rw [if_neg hk] at h
      exact hc.keysMatch k c h
  · intro i
    rw [initStep_allComponents, countId_append, countId_singleton,
      initStep_componentsByID]
    by_cases hi : i = comp.id
    · subst hi
      rw [if_pos rfl, if_pos rfl, hc.flatCount, hfresh]
      rfl
    · rw [if_neg hi, if_neg (fun h => hi h.symm), Nat.add_zero, hc.flatCount]
  · intro k l h c hcl
    rw [initStep_childrenByParentID] at h
    rw [initStep_componentsByID]
    by_cases hk : k = getParentKey comp.parentID
    · rw [if_pos hk] at h
      rw [← Option.some_inj.mp h] at hcl
      rcases List.mem_append.mp hcl with hmem | hmem
      · cases hb : s.childrenByParentID (getParentKey comp.parentID) with
        | none => rw [hb] at hmem; exact absurd hmem (by simp)
        | some l0 =>
          rw [hb, Option.getD_some] at hmem
          obtain ⟨hbyid, hkey⟩ := hc.bucketMem _ l0 hb c hmem
          have hne : c.id ≠ comp.id := by
            intro he
            rw [he, hfresh] at hbyid
            exact Option.noConfusion hbyid
          rw [if_neg hne]
          exact ⟨hbyid, by rw [hkey, hk]⟩
      · have hcc : c = comp := by simpa using hmem
        subst hcc
        rw [if_pos rfl]
        exact ⟨rfl, hk.symm⟩
    · rw [if_neg hk] at h
      obtain ⟨hbyid, hkey⟩ := hc.bucketMem k l h c hcl
      have hne : c.id ≠ comp.id := by
        intro he
        rw [he, hfresh] at hbyid
        exact Option.noConfusion hbyid
      rw [if_neg hne]
      exact ⟨hbyid, hkey⟩
  · intro k l h
    rw [initStep_childrenByParentID] at h
    by_cases hk : k = getParentKey comp.parentID
    · rw [if_pos hk] at h
      rw [← Option.some_inj.mp h]
      exact List.append_ne_nil_of_right_ne_nil _ (by simp)
    · rw [if_neg hk] at h
      exact hc.bucketNonempty k l h
  · intro i c h
    rw [initStep_componentsByID] at h
    rw [initStep_childrenByParentID]
    by_cases hi : i = comp.id
    · subst hi
      rw [if_pos rfl] at h
      rw [← Option.some_inj.mp h]
      rw [if_pos rfl, Option.getD_some, countId_append, countId_singleton,
        if_pos rfl, countId_bucket_of_none hc hfresh]
    · rw [if_neg hi] at h
      by_cases hK : getParentKey c.parentID = getParentKey comp.parentID
      · rw [if_pos hK, Option.getD_some, countId_append, countId_singleton,
          if_neg (fun he => hi he.symm), Nat.add_zero, ← hK]
        exact hc.bucketCount i c h
      · rw [if_neg hK]
        exact hc.bucketCount i c h

/-- Folding a snapshot of fresh, pairwise-distinct ids through `initStep`
preserves consistency. -/
theorem Consistent_foldl (comps : List Component) :
    ∀ s : CacheState, Consistent s → (comps.map Component.id).Nodup →
      (∀ c ∈ comps, s.componentsByID c.id = none) →
      Consistent (comps.foldl initStep s) := by
  induction comps with
  | nil => intro s hc _ _; exact hc
  | cons comp rest ih =>
    intro s hc hnd hfresh
    rw [List.foldl_cons]
    have hnd' : (rest.map Component.id).Nodup := (List.nodup_cons.mp hnd).2
    have hnotin : comp.id ∉ rest.map Component.id := (List.nodup_cons.mp hnd).1
    refine ih (initStep s comp) ?_ hnd' ?_
    · exact Consistent_initStep hc (hfresh comp (List.mem_cons_self _ _))
    · intro c hcr
      rw [initStep_componentsByID]
      have hne : c.id ≠ comp.id := by
        intro he
        exact hnotin (he ▸ List.mem_map_of_mem Component.id hcr)
      rw [if_neg hne]
      exact hfresh c (List.mem_cons_of_mem _ hcr)

theorem Consistent_buildFromSnapshot {comps : List Component}
    (hnd : (comps.map Component.id).Nodup) :
    Consistent (buildFromSnapshot comps) := by
  unfold buildFromSnapshot
  exact Consistent_foldl comps NewComponentCache Consistent_empty hnd
    (fun c _ => rfl)

theorem Set_componentsByID_apply (s : CacheState) (comp : Component) (k : Int) :
    (Set s (some comp)).componentsByID k =
      if k = comp.id then some comp else s.componentsByID k := by
  rw [Set_componentsByID]

theorem mem_getD_some {o : Option (List Component)} {c : Component}
    (h : c ∈ o.getD []) : ∃ l0, o = some l0 ∧ c ∈ l0 := by
  cases o with
  | none => exact absurd h (by simp)
  | some l0 => exact ⟨l0, rfl, by simpa using h⟩

/-- Preservation: `Set` preserves the index-consistency invariant. -/
theorem Consistent_Set {s : CacheState} (hc : Consistent s) (comp : Component) :
    Consistent (Set s (some comp)) := by
  have hid : ∀ old, s.componentsByID comp.id = some old → old.id = comp.id :=
    fun old h => hc.keysMatch comp.id old h
  -- a bucket member whose id is cached carries the current value and key
  have hmemval : ∀ k l, s.childrenByParentID k = some l → ∀ c ∈ l,
      c.id = comp.id → ∀ old, s.componentsByID comp.id = some old →
      c = old ∧ k = getParentKey old.parentID := by
    intro k l hl c hcl hci old hold
    obtain ⟨hbyid, hkey⟩ := hc.bucketMem k l hl c hcl
    rw [hci, hold] at hbyid
    have hco : c = old := (Option.some_inj.mp hbyid).symm
    exact ⟨hco, by rw [← hkey, hco]⟩
  constructor
  · -- keysMatch
    intro k c h
    rw [Set_componentsByID_apply] at h
    by_cases hk : k = comp.id
    · rw [if_pos hk] at h
      rw [← Option.some_inj.mp h, hk]
    · rw [if_neg hk] at h
      exact hc.keysMatch k c h
  · -- flatCount
    intro i
    rw [Set_allComponents, Set_componentsByID_apply]
    by_cases hany : s.allComponents.any (fun c => c.id = comp.id) = true
    · rw [if_pos hany, countId_replaceFirstById]
      have hone : countId comp.id s.allComponents = 1 := by
        have hne := (any_id_iff comp.id s.allComponents).mp hany
        have := hc.flatCount comp.id
        by_cases hs : (s.componentsByID comp.id).isSome = true
        · rw [this, if_pos hs]
        · rw [this, if_neg hs] at hne ⊢
          exact absurd rfl hne
      by_cases hi : i = comp.id
      · subst hi
        rw [if_pos rfl, hone]
        rfl
      · rw [if_neg hi, hc.flatCount]
    · rw [if_neg hany, countId_append, countId_singleton]
      have hzero : countId comp.id s.allComponents = 0 := by
        by_cases h0 : countId comp.id s.allComponents = 0
        · exact h0
        · exact absurd ((any_id_iff comp.id s.allComponents).mpr h0) hany
      have hnone : (s.componentsByID comp.id).isSome = false := by
        have := hc.flatCount comp.id
        rw [hzero] at this
        by_cases hs : (s.componentsByID comp.id).isSome = true
        · rw [if_pos hs] at this; exact absurd this.symm one_ne_zero
        · exact Bool.eq_false_iff.mpr hs
      by_cases hi : i = comp.id
      · subst hi
        rw [if_pos rfl, if_pos rfl, hzero]
        rfl
      · rw [if_neg hi, if_neg (fun h => hi h.symm), Nat.add_zero, hc.flatCount]
  · -- bucketMem
    intro k l h c hcl
    rw [Set_childrenByParentID] at h
    rw [Set_componentsByID_apply]
    by_cases hk : k = getParentKey comp.parentID
    · subst hk
      rw [setBuckets_newKey s comp hid] at h
      rw [← Option.some_inj.mp h] at hcl
      rcases List.mem_append.mp hcl with hmem | hmem
      · have hcid : c.id ≠ comp.id := by simpa using List.of_mem_filter hmem
        obtain ⟨l0, hl0, hcl0⟩ := mem_getD_some (List.mem_of_mem_filter hmem)
        obtain ⟨hbyid, hkey⟩ := hc.bucketMem _ l0 hl0 c hcl0
        rw [if_neg hcid]
        exact ⟨hbyid, hkey⟩
      · have hcc : c = comp := by simpa using hmem
        subst hcc
        rw [if_pos rfl]
        exact ⟨rfl, rfl⟩
    · cases hold : s.componentsByID comp.id with
      | none =>
        rw [setBuckets_other s comp k hk
          (fun old h0 => absurd h0 (by rw [hold]; exact fun h => Option.noConfusion h))]
          at h
        obtain ⟨hbyid, hkey⟩ := hc.bucketMem k l h c hcl
        have hcid : c.id ≠ comp.id := by
          intro he
          rw [he, hold] at hbyid
          exact Option.noConfusion hbyid
        rw [if_neg hcid]
        exact ⟨hbyid, hkey⟩
      | some old =>
        by_cases hko : k = getParentKey old.parentID
        · rw [setBuckets_oldKey s comp old k hold (hid old hold) hko hk] at h
          obtain ⟨hmem, hcid⟩ := mem_of_mem_pruneFilter h hcl
          obtain ⟨l0, hl0, hcl0⟩ := mem_getD_some hmem
          obtain ⟨hbyid, hkey⟩ := hc.bucketMem k l0 hl0 c hcl0
          rw [if_neg hcid]
          exact ⟨hbyid, hkey⟩
        · rw [setBuckets_other s comp k hk
            (fun old' h0 => by
              rw [hold] at h0
              rw [← Option.some_inj.mp h0]
              exact hko)] at h
          obtain ⟨hbyid, hkey⟩ := hc.bucketMem k l h c hcl
          have hcid : c.id ≠ comp.id := by
            intro he
            obtain ⟨hco, hkk⟩ := hmemval k l h c hcl he old hold
            exact hko hkk
          rw [if_neg hcid]
          exact ⟨hbyid, hkey⟩
  · -- bucketNonempty
    intro k l h
    rw [Set_childrenByParentID] at h
    by_cases hk : k = getParentKey comp.parentID
    · subst hk
      rw [setBuckets_newKey s comp hid] at h
      rw [← Option.some_inj.mp h]
      exact List.append_ne_nil_of_right_ne_nil _ (by simp)
    · cases hold : s.componentsByID comp.id with
      | none =>
        rw [setBuckets_other s comp k hk
          (fun old h0 => absurd h0 (by rw [hold]; exact fun h => Option.noConfusion h))]
          at h
        exact hc.bucketNonempty k l h
      | some old =>
        by_cases hko : k = getParentKey old.parentID
        · rw [setBuckets_oldKey s comp old k hold (hid old hold) hko hk] at h
          exact pruneFilter_ne_nil h
        · rw [setBuckets_other s comp k hk
            (fun old' h0 => by
              rw [hold] at h0
              rw [← Option.some_inj.mp h0]
              exact hko)] at h
          exact hc.bucketNonempty k l h
  · -- bucketCount
    intro i c h
    rw [Set_componentsByID_apply] at h
    rw [Set_childrenByParentID]
    by_cases hi : i = comp.id
    · subst hi
      rw [if_pos rfl] at h
      rw [← Option.some_inj.mp h]
      rw [setBuckets_newKey s comp hid, Option.getD_some, countId_append,
        countId_singleton, if_pos rfl, countId_filter_self]
    · rw [if_neg hi] at h
      have hone := hc.bucketCount i c h
      by_cases hK : getParentKey c.parentID = getParentKey comp.parentID
      · rw [hK, setBuckets_newKey s comp hid, Option.getD_some, countId_append,
          countId_singleton, if_neg (fun he => hi he.symm), Nat.add_zero,
          countId_filter_ne hi, ← hK]
        exact hone
      · cases hold : s.componentsByID comp.id with
        | none =>
          rw [setBuckets_other s comp _ hK
            (fun old h0 => absurd h0 (by rw [hold]; exact fun h => Option.noConfusion h))]
          exact hone
        | some old =>
          by_cases hko : getParentKey c.parentID = getParentKey old.parentID
          · rw [setBuckets_oldKey s comp old _ hold (hid old hold) hko hK,
              countId_pruneFilter_ne hi]
            exact hone
          · rw [setBuckets_other s comp _ hK
              (fun old' h0 => by
                rw [hold] at h0
                rw [← Option.some_inj.mp h0]
                exact hko)]
            exact hone

theorem Delete_componentsByID_apply {s : CacheState} {componentID : Int}
    {component : Component} (h : s.componentsByID componentID = some component)
    (k : Int) :
    (Delete s componentID).componentsByID k =
      if k = componentID then none else s.componentsByID k := by
  rw [Delete_eq h]

theorem Delete_childrenByParentID_apply {s : CacheState} {componentID : Int}
    {component : Component} (h : s.componentsByID componentID = some component)
    (k : Int) :
    (Delete s componentID).childrenByParentID k =
      if k = getParentKey component.parentID then
        pruneFilter componentID (s.childrenByParentID k)
      else s.childrenByParentID k := by
  rw [Delete_eq h]

theorem Delete_allComponents {s : CacheState} {componentID : Int}
    {component : Component} (h : s.componentsByID componentID = some component) :
    (Delete s componentID).allComponents =
      s.allComponents.filter (fun comp => comp.id ≠ componentID) := by
  rw [Delete_eq h]

/-- Preservation: `Delete` preserves the index-consistency invariant. -/
theorem Consistent_Delete {s : CacheState} (hc : Consistent s) (componentID : Int) :
    Consistent (Delete s componentID) := by
  cases h0 : s.componentsByID componentID with
  | none => rw [Delete_absent h0]; exact hc
  | some c0 =>
    constructor
    · intro k c h
      rw [Delete_componentsByID_apply h0] at h
      by_cases hk : k = componentID
      · rw [if_pos hk] at h
        exact Option.noConfusion h
      · rw [if_neg hk] at h
        exact hc.keysMatch k c h
    · intro i
      rw [Delete_allComponents h0, Delete_componentsByID_apply h0]
      by_cases hi : i = componentID
      · subst hi
        rw [if_pos rfl, countId_filter_self]
        rfl
      · rw [if_neg hi, countId_filter_ne hi, hc.flatCount]
    · intro k l h c hcl
      rw [Delete_childrenByParentID_apply h0] at h
      rw [Delete_componentsByID_apply h0]
      by_cases hk : k = getParentKey c0.parentID
      · rw [if_pos hk] at h
        obtain ⟨hmem, hcid⟩ := mem_of_mem_pruneFilter h hcl
        obtain ⟨l0, hl0, hcl0⟩ := mem_getD_some hmem
        obtain ⟨hbyid, hkey⟩ := hc.bucketMem k l0 hl0 c hcl0
        rw [if_neg hcid]
        exact ⟨hbyid, hkey⟩
      · rw [if_neg hk] at h
        obtain ⟨hbyid, hkey⟩ := hc.bucketMem k l h c hcl
        have hcid : c.id ≠ componentID := by
          intro he
          rw [he, h0] at hbyid
          have hcc : c = c0 := (Option.some_inj.mp hbyid).symm
          rw [← hkey, hcc] at hk
          exact hk rfl
        rw [if_neg hcid]
        exact ⟨hbyid, hkey⟩
    · intro k l h
      rw [Delete_childrenByParentID_apply h0] at h
      by_cases hk : k = getParentKey c0.parentID
      · rw [if_pos hk] at h
        exact pruneFilter_ne_nil h
      · rw [if_neg hk] at h
        exact hc.bucketNonempty k l h
    · intro i c h
      rw [Delete_componentsByID_apply h0] at h
      rw [Delete_childrenByParentID_apply h0]
      by_cases hi : i = componentID
      · rw [if_pos hi] at h
        exact Option.noConfusion h
      · rw [if_neg hi] at h
        have hone := hc.bucketCount i c h
        by_cases hK : getParentKey c.parentID = getParentKey c0.parentID
        · rw [if_pos hK, countId_pruneFilter_ne hi]
          exact hone
        · rw [if_neg hK]
          exact hone

/-- Every reachable cache state is consistent. -/
theorem reachable_consistent {s : CacheState} (h : Reachable s) : Consistent s := by
  induction h with
  | init comps hnd => exact Consistent_buildFromSnapshot hnd
  | set s c _ ih =>
    cases c with
    | none => rw [Set_nil]; exact ih
    | some comp => exact Consistent_Set ih comp
  | del s i _ ih => exact Consistent_Delete ih i

/-! ### Getter helpers -/

/-- The list returned by `GetChildren` is always the bucket contents (empty
when the bucket is absent or empty). -/
theorem GetChildren_fst (s : CacheState) (k : Int) :
    (GetChildren s k).1 = (s.childrenByParentID k).getD [] := by
  unfold GetChildren
  cases h : s.childrenByParentID k with
  | none => rfl
  | some l =>
    show (if l.isEmpty = true then (([] : List Component), false) else (l, true)).1
      = (some l).getD []
    by_cases hl : l.isEmpty = true
    · rw [if_pos hl, Option.getD_some, List.isEmpty_iff.mp hl]
    · rw [if_neg hl, Option.getD_some]

theorem GetChildren_of_bucket_none {s : CacheState} {k : Int}
    (h : s.childrenByParentID k = none) : GetChildren s k = ([], false) := by
  unfold GetChildren
  rw [h]

theorem exists_of_countId_ne_zero {i : Int} {l : List Component}
    (h : countId i l ≠ 0) : ∃ c ∈ l, c.id = i := by
  have := (any_id_iff i l).mpr h
  simpa using this

/-- The new-key bucket after `Set` always ends with the fresh copy and holds
no other occurrence of its id (no consistency assumption needed). -/
theorem setBuckets_newKey_raw (s : CacheState) (comp : Component) :
    ∃ P, setBuckets s comp (getParentKey comp.parentID) = some (P ++ [comp]) ∧
      countId comp.id P = 0 := by
  cases h : s.componentsByID comp.id with
  | none =>
    refine ⟨(pruneFilter comp.id
      (s.childrenByParentID (getParentKey comp.parentID))).getD [],
      ?_, countId_pruneFilter_self _ _⟩
    simp only [setBuckets, h, eq_self_iff_true, if_true]
  | some old =>
    by_cases hp : old.parentID ≠ comp.parentID
    · refine ⟨(pruneFilter comp.id
        (if getParentKey comp.parentID = getParentKey old.parentID then
          pruneFilter old.id (s.childrenByParentID (getParentKey comp.parentID))
        else s.childrenByParentID (getParentKey comp.parentID))).getD [],
        ?_, countId_pruneFilter_self _ _⟩
      simp only [setBuckets, h, if_pos hp, eq_self_iff_true, if_true]
    · refine ⟨(pruneFilter comp.id
        (s.childrenByParentID (getParentKey comp.parentID))).getD [],
        ?_, countId_pruneFilter_self _ _⟩
      simp only [setBuckets, h, if_neg hp, eq_self_iff_true, if_true]

/-- After `Set e`, the by-ID lookup of `e.id` returns the stored copy. -/
theorem GetByID_Set_self (s : CacheState) (e : Component) :
    GetByID (Set s (some e)) e.id = (some e, true) := by
  unfold GetByID
  rw [Set_componentsByID_apply, if_pos rfl]


/-! ### Claims -/

/-- C5: Round trip — for every entity `e`, immediately after `Set e`,
`GetByID e.id` returns found = true and an entity equal to `e` (hence equal in
every field: id, name, description, parentID, createdAt, updatedAt). -/
theorem C5_round_trip (s : CacheState) (e : Component) :
    GetByID (Set s (some e)) e.id = (some e, true) :=
  GetByID_Set_self s e

/-- C5 witness: the round trip at a concrete state and entity. -/
theorem C5_witness :
    GetByID (Set NewComponentCache (some cA)) cA.id = (some cA, true) :=
  C5_round_trip NewComponentCache cA

/-- C10: `Set` with a nil entity and `Delete` of an absent id are total no-ops:
they return without error and leave the whole cache state (by-ID index,
by-parent index, flat listing) unchanged. -/
theorem C10_total_noop (s : CacheState) (i : Int)
    (h : s.componentsByID i = none) :
    Set s none = s ∧ Delete s i = s :=
  ⟨rfl, Delete_absent h⟩

/-- C10 witness: both no-ops at a concrete state and id. -/
theorem C10_witness :
    Set NewComponentCache none = NewComponentCache ∧
    Delete NewComponentCache 5 = NewComponentCache :=
  C10_total_noop NewComponentCache 5 rfl

/-- C6: Delete does not cascade or re-parent — after deleting a cached parent,
every cached child with a distinct id is still returned unchanged by
`GetByID`, its stored parent_id still a present reference to the now-absent
parent, while the parent itself is gone from the by-ID index. -/
theorem C6_no_cascade (s : CacheState) (p child : Component)
    (hp : s.componentsByID p.id = some p)
    (hchild : s.componentsByID child.id = some child)
    (hpid : child.parentID = ⟨true, p.id⟩)
    (hne : child.id ≠ p.id) :
    GetByID (Delete s p.id) child.id = (some child, true) ∧
    (Delete s p.id).componentsByID p.id = none ∧
    child.parentID.valid = true ∧ child.parentID.int64 = p.id := by
  refine ⟨?_, ?_, by rw [hpid], by rw [hpid]⟩
  · unfold GetByID
    rw [Delete_componentsByID_apply hp, if_neg hne, hchild]
  · rw [Delete_componentsByID_apply hp, if_pos rfl]

/-- C6 witness: in the §8 snapshot, after `Delete 1` the child 2 is still
present and unchanged. -/
theorem C6_witness :
    GetByID (Delete (buildFromSnapshot [cA, cB, cC]) cA.id) cB.id =
      (some cB, true) :=
  (C6_no_cascade (buildFromSnapshot [cA, cB, cC]) cA cB
    (by decide) (by decide) (by decide) (by decide)).1

/-- C2: evaluation of the code on the §8 scenario.  After `Delete 1` the
bucket keyed by the deleted parent's own id is NOT removed: `GetChildren 1`
still returns both children with found = true (the claim and the repository's
own unit test `Delete_ExistingComponent_RootWithChildren` expect
`(empty, false)` and an absent bucket).  The other §8 post-conditions hold. -/
theorem C2_delete_keeps_childrens_bucket :
    GetByID (Delete (buildFromSnapshot [cA, cB, cC]) 1) 1 = (none, false) ∧
    GetChildren (Delete (buildFromSnapshot [cA, cB, cC]) 1) 1 = ([cB, cC], true) ∧
    GetByID (Delete (buildFromSnapshot [cA, cB, cC]) 1) 2 = (some cB, true) ∧
    GetByID (Delete (buildFromSnapshot [cA, cB, cC]) 1) 3 = (some cC, true) ∧
    (GetAll (Delete (buildFromSnapshot [cA, cB, cC]) 1)).length = 2 ∧
    GetChildren (Delete (buildFromSnapshot [cA, cB, cC]) 1) RootParentIDKey =
      ([], false) := by
  decide

/-- C3 counterexample: with a non-empty prior cache and a failing loader,
`InitGlobalCache` returns the wrapped error BUT leaves the global pointing at
a fresh, valid, empty cache (not an unusable/uninitialized one), and the prior
state (which served id 1) has already been discarded. -/
theorem C3_counterexample :
    (InitGlobalCache (some (buildFromSnapshot [cA])) (Except.error "db down")).1 =
      some NewComponentCache ∧
    (InitGlobalCache (some (buildFromSnapshot [cA])) (Except.error "db down")).2 =
      some "failed to list components for cache initialization: db down" ∧
    GetByID NewComponentCache cA.id = (none, false) ∧
    GetByID (buildFromSnapshot [cA]) cA.id = (some cA, true) :=
  ⟨rfl, by decide, by decide, by decide⟩

/-- C3 (amended): when the loader fails, `InitGlobalCache` returns a wrapped
error, but the global has already been unconditionally replaced by a fresh
empty cache BEFORE the loader ran: prior state is discarded regardless of
success, and the failed initialization leaves behind a valid empty cache whose
reads all report not-found / empty; on success the snapshot build replaces the
global and no error is returned. -/
theorem C3_amended (prior : Option CacheState) (e : String) :
    (InitGlobalCache prior (Except.error e)).1 = some NewComponentCache ∧
    (InitGlobalCache prior (Except.error e)).2 =
      some ("failed to list components for cache initialization: " ++ e) ∧
    (∀ i, GetByID NewComponentCache i = (none, false)) ∧
    GetAll NewComponentCache = [] ∧
    (∀ k, GetChildren NewComponentCache k = ([], false)) ∧
    (∀ prior2 comps, (InitGlobalCache prior2 (Except.ok comps)).1 =
      some (buildFromSnapshot comps) ∧
      (InitGlobalCache prior2 (Except.ok comps)).2 = none) :=
  ⟨rfl, rfl, fun _ => rfl, rfl, fun _ => rfl, fun _ _ => ⟨rfl, rfl⟩⟩

/-- C3 witness: the amended failure behaviour at a concrete prior state and
error message. -/
theorem C3_witness :
    (InitGlobalCache (some (buildFromSnapshot [cA, cB, cC]))
      (Except.error "db down")).1 = some NewComponentCache :=
  (C3_amended (some (buildFromSnapshot [cA, cB, cC])) "db down").1

/-- C4 counterexample: an entity whose parent_id is present with value 0 is
stored and returned VERBATIM by `GetByID` — the value is not normalized to
absent (the claim expects parent_id to come back absent). -/
theorem C4_counterexample :
    GetByID (Set NewComponentCache (some e7)) 7 = (some e7, true) ∧
    e7.parentID = ⟨true, 0⟩ := by
  decide

/-- C4 (amended): a present parent_id of value 0 is never treated as a real
parent reference in the by-parent INDEX — `getParentKey` resolves it to the
ROOT sentinel key, so after `Set` the entity sits (exactly once) in the ROOT
bucket; but the stored value is NOT normalized: `GetByID` returns the entity
with parent_id still present with value 0. -/
theorem C4_amended (s : CacheState) (e : Component)
    (hpid : e.parentID = ⟨true, 0⟩) :
    getParentKey e.parentID = RootParentIDKey ∧
    GetByID (Set s (some e)) e.id = (some e, true) ∧
    countId e.id (GetChildren (Set s (some e)) RootParentIDKey).1 = 1 := by
  have hkey : getParentKey e.parentID = RootParentIDKey := by
    rw [hpid]; rfl
  refine ⟨hkey, GetByID_Set_self s e, ?_⟩
  obtain ⟨P, hP, hP0⟩ := setBuckets_newKey_raw s e
  rw [GetChildren_fst]
  have hb : (Set s (some e)).childrenByParentID RootParentIDKey =
      some (P ++ [e]) := by
    rw [Set_childrenByParentID, ← hkey]
    exact hP
  rw [hb, Option.getD_some, countId_append, countId_singleton, if_pos rfl, hP0]

/-- C4 witness: the concrete entity with parent_id = (present, 0) lands in the
ROOT bucket exactly once. -/
theorem C4_witness :
    countId e7.id (GetChildren (Set NewComponentCache (some e7))
      RootParentIDKey).1 = 1 :=
  (C4_amended NewComponentCache e7 rfl).2.2

/-- C1: Index consistency — every state reachable by a bulk build from a
snapshot with pairwise-distinct ids followed by any `Set`/`Delete` sequence is
`Consistent` (each id occurs exactly once in the flat listing and exactly once
across all buckets, and every bucket member's resolved parent key is its
bucket's key), and consequently the set of ids in the flat listing, the set of
keys of the by-ID index, and the union of ids across all buckets coincide. -/
theorem C1_index_consistency {s : CacheState} (h : Reachable s) :
    Consistent s ∧
    (∀ i, (∃ c ∈ s.allComponents, c.id = i) ↔ (s.componentsByID i).isSome = true) ∧
    (∀ i, (∃ k l, s.childrenByParentID k = some l ∧ ∃ c ∈ l, c.id = i) ↔
      (s.componentsByID i).isSome = true) := by
  have hc := reachable_consistent h
  refine ⟨hc, ?_, ?_⟩
  · intro i
    constructor
    · rintro ⟨c, hcl, hci⟩
      by_cases hs : (s.componentsByID i).isSome = true
      · exact hs
      · have hf := hc.flatCount i
        rw [if_neg hs] at hf
        exact absurd hci (countId_eq_zero.mp hf c hcl)
    · intro hs
      have hf := hc.flatCount i
      rw [if_pos hs] at hf
      exact exists_of_countId_ne_zero (by rw [hf]; exact one_ne_zero)
  · intro i
    constructor
    · rintro ⟨k, l, hl, c, hcl, hci⟩
      have hbyid := (hc.bucketMem k l hl c hcl).1
      rw [hci] at hbyid
      rw [hbyid]
      rfl
    · intro hs
      cases hb : s.componentsByID i with
      | none => rw [hb] at hs; exact absurd hs (by simp)
      | some c =>
        have h1 := hc.bucketCount i c hb
        cases hk : s.childrenByParentID (getParentKey c.parentID) with
        | none =>
          rw [hk] at h1
          simp [countId] at h1
        | some l =>
          rw [hk, Option.getD_some] at h1
          obtain ⟨c', hc', hc'i⟩ :=
            exists_of_countId_ne_zero (by rw [h1]; exact one_ne_zero)
          exact ⟨getParentKey c.parentID, l, hk, c', hc', hc'i⟩

/-- C1 witness: a concrete reachable state (build, re-parent, delete) is
consistent. -/
theorem C1_witness :
    Consistent (Delete (Set (buildFromSnapshot [cA, cB, cC]) (some cBroot)) 1) :=
  (C1_index_consistency (Reachable.del _ 1 (Reachable.set _ (some cBroot)
    (Reachable.init [cA, cB, cC] (by decide))))).1

/-- C7 counterexample: updating entity 2 in place (same id, same parent key 1,
changed name) moves it to the END of bucket 1 — `GetChildren 1` order changes
from `[2, 3]` to `[3, 2]`, contradicting the claim that its position within
the bucket order is unchanged (the flat `GetAll` order IS preserved). -/
theorem C7_counterexample :
    (GetChildren (buildFromSnapshot [cA, cB, cC]) 1).1.map Component.id
      = [2, 3] ∧
    (GetChildren (Set (buildFromSnapshot [cA, cB, cC]) (some cB2)) 1).1.map
      Component.id = [3, 2] ∧
    GetAll (Set (buildFromSnapshot [cA, cB, cC]) (some cB2)) = [cA, cB2, cC] := by
  decide

/-- C7 (amended): a `Set` whose resolved parent key is unchanged is a value
update that keeps every other id's by-ID entry, preserves the flat-listing
(`GetAll`) order of ids (in-place slot replacement), and leaves every other
bucket untouched; within its parent bucket, however, the entity is removed and
re-appended, so it moves to the END of the bucket order. -/
theorem C7_amended (s : CacheState) (hcons : Consistent s) (e old : Component)
    (hold : s.componentsByID e.id = some old)
    (hkey : getParentKey old.parentID = getParentKey e.parentID) :
    (∀ j, j ≠ e.id → (Set s (some e)).componentsByID j = s.componentsByID j) ∧
    (Set s (some e)).componentsByID e.id = some e ∧
    (GetAll (Set s (some e))).map Component.id = (GetAll s).map Component.id ∧
    (∀ k, k ≠ getParentKey e.parentID →
      (Set s (some e)).childrenByParentID k = s.childrenByParentID k) ∧
    (Set s (some e)).childrenByParentID (getParentKey e.parentID) =
      some (((s.childrenByParentID (getParentKey e.parentID)).getD []).filter
        (fun c => c.id ≠ e.id) ++ [e]) := by
  have hid : ∀ o, s.componentsByID e.id = some o → o.id = e.id :=
    fun o h0 => hcons.keysMatch e.id o h0
  refine ⟨?_, ?_, ?_, ?_, ?_⟩
  · intro j hj
    rw [Set_componentsByID_apply, if_neg hj]
  · rw [Set_componentsByID_apply, if_pos rfl]
  · unfold GetAll
    rw [Set_allComponents]
    have hone : countId e.id s.allComponents = 1 := by
      have hf := hcons.flatCount e.id
      rw [hold] at hf
      simpa using hf
    rw [if_pos ((any_id_iff e.id s.allComponents).mpr
        (by rw [hone]; exact one_ne_zero)),
      map_id_replaceFirstById]
  · intro k hk
    rw [Set_childrenByParentID]
    exact setBuckets_other s e k hk
      (fun o h0 => by
        rw [hold] at h0
        rw [← Option.some_inj.mp h0, hkey]
        exact hk)
  · rw [Set_childrenByParentID]
    exact setBuckets_newKey s e hid

/-- C7 witness: the same-parent update of entity 2 in the §8 snapshot. -/
theorem C7_witness :
    (Set (buildFromSnapshot [cA, cB, cC]) (some cB2)).componentsByID cB2.id =
      some cB2 :=
  (C7_amended (buildFromSnapshot [cA, cB, cC])
    (reachable_consistent (Reachable.init [cA, cB, cC] (by decide))) cB2 cB
    (by decide) (by decide)).2.1

/-- C8: Re-parent moves, not duplicates — for a cached entity with resolved
parent key P1, a `Set` of the same id with resolved parent key P2 ≠ P1 leaves
`GetChildren P1` without the id, puts it exactly once in `GetChildren P2`, and
prunes P1's bucket entirely when the entity was its last child. -/
theorem C8_reparent_moves (s : CacheState) (hcons : Consistent s)
    (e old : Component) (hold : s.componentsByID e.id = some old)
    (hP : getParentKey old.parentID ≠ getParentKey e.parentID) :
    countId e.id (GetChildren (Set s (some e)) (getParentKey old.parentID)).1
      = 0 ∧
    countId e.id (GetChildren (Set s (some e)) (getParentKey e.parentID)).1
      = 1 ∧
    ((((s.childrenByParentID (getParentKey old.parentID)).getD []).filter
        (fun c => c.id ≠ e.id)) = [] →
      GetChildren (Set s (some e)) (getParentKey old.parentID) = ([], false)) := by
  have hid : ∀ o, s.componentsByID e.id = some o → o.id = e.id :=
    fun o h0 => hcons.keysMatch e.id o h0
  have hoid : old.id = e.id := hid old hold
  have hb1 : (Set s (some e)).childrenByParentID (getParentKey old.parentID) =
      pruneFilter e.id (s.childrenByParentID (getParentKey old.parentID)) := by
    rw [Set_childrenByParentID]
    exact setBuckets_oldKey s e old _ hold hoid rfl hP
  refine ⟨?_, ?_, ?_⟩
  · rw [GetChildren_fst, hb1]
    exact countId_pruneFilter_self e.id _
  · rw [GetChildren_fst]
    have hb2 : (Set s (some e)).childrenByParentID (getParentKey e.parentID) =
        some (((s.childrenByParentID (getParentKey e.parentID)).getD []).filter
          (fun c => c.id ≠ e.id) ++ [e]) := by
      rw [Set_childrenByParentID]
      exact setBuckets_newKey s e hid
    rw [hb2, Option.getD_some, countId_append, countId_singleton, if_pos rfl,
      countId_filter_self]
  · intro hfil
    apply GetChildren_of_bucket_none
    rw [hb1]
    cases hcase : s.childrenByParentID (getParentKey old.parentID) with
    | none => rfl
    | some l =>
      rw [pruneFilter_some]
      rw [hcase, Option.getD_some] at hfil
      rw [if_pos hfil]

/-- C8 witness: reparenting entity 2 (child of 1) to the ROOT key in the §8
snapshot removes it from bucket 1. -/
theorem C8_witness :
    countId cBroot.id (GetChildren (Set (buildFromSnapshot [cA, cB, cC])
      (some cBroot)) (getParentKey cB.parentID)).1 = 0 :=
  (C8_reparent_moves (buildFromSnapshot [cA, cB, cC])
    (reachable_consistent (Reachable.init [cA, cB, cC] (by decide))) cBroot cB
    (by decide) (by decide)).1

/-- C9: Idempotent upsert — for every entity `e` and EVERY cache state,
calling `Set e` twice yields a state equal (hence observably equal through
`GetByID`, `GetAll`, `GetChildren`, orders included) to calling it once. -/
theorem C9_idempotent (s : CacheState) (e : Component) :
    Set (Set s (some e)) (some e) = Set s (some e) := by
  have htid : (Set s (some e)).componentsByID e.id = some e := by
    rw [Set_componentsByID_apply, if_pos rfl]
  have hid : ∀ o, (Set s (some e)).componentsByID e.id = some o →
      o.id = e.id := by
    intro o h0
    rw [htid] at h0
    rw [← Option.some_inj.mp h0]
  have hcnt : countId e.id (Set s (some e)).allComponents ≠ 0 := by
    rw [Set_allComponents]
    by_cases hany : s.allComponents.any (fun c => c.id = e.id) = true
    · rw [if_pos hany, countId_replaceFirstById]
      exact (any_id_iff e.id s.allComponents).mp hany
    · rw [if_neg hany, countId_append, countId_singleton, if_pos rfl]
      omega
  apply CacheState.ext
  · funext k
    rw [Set_componentsByID_apply (Set s (some e)) e k]
    by_cases hk : k = e.id
    · rw [if_pos hk, hk, htid]
    · rw [if_neg hk]
  · funext k
    rw [Set_childrenByParentID (Set s (some e)) e]
    by_cases hk : k = getParentKey e.parentID
    · subst hk
      rw [setBuckets_newKey (Set s (some e)) e hid]
      obtain ⟨P, hP, hP0⟩ := setBuckets_newKey_raw s e
      have hbP : (Set s (some e)).childrenByParentID (getParentKey e.parentID) =
          some (P ++ [e]) := by
        rw [Set_childrenByParentID s e]
        exact hP
      rw [hbP, Option.getD_some, List.filter_append,
        filter_id_eq_self (countId_eq_zero.mp hP0)]
      have hfe : ([e].filter (fun c => c.id ≠ e.id)) = [] := by simp
      rw [hfe, List.append_nil]
    · rw [setBuckets_other (Set s (some e)) e k hk
        (fun o h0 => by
          rw [htid] at h0
          rw [← Option.some_inj.mp h0]
          exact hk)]
  · rw [Set_allComponents (Set s (some e)) e,
      if_pos ((any_id_iff _ _).mpr hcnt)]
    rw [Set_allComponents s e]
    by_cases hany : s.allComponents.any (fun c => c.id = e.id) = true
    · rw [if_pos hany, replaceFirstById_idem]
    · rw [if_neg hany]
      apply replaceFirstById_append_self
      intro c hcmem
      have h0 : countId e.id s.allComponents = 0 := by
        by_cases hcc : countId e.id s.allComponents = 0
        · exact hcc
        · exact absurd ((any_id_iff _ _).mpr hcc) hany
      exact countId_eq_zero.mp h0 c hcmem

/-- C9 witness: idempotency at a concrete state and entity. -/
theorem C9_witness :
    Set (Set (buildFromSnapshot [cA]) (some cB)) (some cB) =
      Set (buildFromSnapshot [cA]) (some cB) :=
  C9_idempotent (buildFromSnapshot [cA]) cB

end ComponentCache
